import Mathlib

/-!
Verification of the partial-extent raster fetch pipeline of
`stac-downloader.py` (function `main`, per-asset loop).

The embedding models the per-asset pipeline as pure functions:

* coordinates are rationals (`ℚ`); pixel indices are integers obtained by
  flooring, matching rasterio's `DatasetReader.index` (default `op = floor`);
* the coordinate transformer family `Transformer.from_crs("epsg:4326", crs)`
  is an abstract parameter `Transf` mapping a destination CRS (EPSG code)
  and an input coordinate pair to an output coordinate pair;
* the windowed read `geo_fp.read(1, window=...)` follows rasterio's
  non-boundless semantics: the window is cropped to the dataset extent
  before reading (the spec documents this clipping explicitly);
* paths are lists of characters; `str.split` and `os.path.join` are
  modelled on those lists;
* the filesystem is a map from paths to written raster content, and a run
  over a list of assets threads that map; the `exit()` call on an
  out-of-bounds window stops the run, leaving the map as it stands;
* transformer construction and application are additionally traced by an
  event log in order to state the once-per-asset construction property.
-/

namespace StacDL

/-- A coordinate pair, as handled by `pyproj`'s `transform`. -/
abbrev Coord := ℚ × ℚ

/-- A geographic bounding box `(min_x, min_y, max_x, max_y)`,
the result of `rasterio.features.bounds`. -/
abbrev BBox := ℚ × ℚ × ℚ × ℚ

/-- The family of coordinate transforms: argument one is the target CRS
(EPSG code) of `Transformer.from_crs("epsg:4326", crs)`, argument two the
point handed to `transformer.transform`. -/
abbrev Transf := Nat → Coord → Coord

/-- The six-coefficient affine transform `rasterio.Affine(a, b, c, d, e, f)`:
`x = a * col + b * row + c`, `y = d * col + e * row + f`.
Sequence indexing `transform[i]` yields the `i`-th coefficient. -/
structure Affine where
  a : ℚ
  b : ℚ
  c : ℚ
  d : ℚ
  e : ℚ
  f : ℚ
deriving DecidableEq

/-- A remote raster asset as opened by `rasterio.open(geotiff_file)`:
its URL, native CRS, pixel dimensions, affine transform, a data-type
descriptor, and the band-1 pixel values. -/
structure RasterAsset where
  url : List Char
  crs : Nat
  width : Nat
  height : Nat
  transform : Affine
  dtype : Nat
  pixel : Nat → Nat → Int

/-- The metadata profile `geo_fp.profile` (the fields the pipeline touches). -/
structure Profile where
  width : Nat
  height : Nat
  transform : Affine
  crs : Nat
  dtype : Nat
deriving DecidableEq

/-- The numeric array returned by the windowed read, with its realized
numpy shape `(rows, cols)`; the shape is carried explicitly because a numpy
array keeps its column count even when it has zero rows. -/
structure SampleBlock where
  rows : Nat
  cols : Nat
  entries : List (List Int)
deriving DecidableEq

/-- The content persisted for one asset: the rewritten profile plus the
pixel block written as band 1. -/
structure OutputContent where
  profile : Profile
  block : SampleBlock
deriving DecidableEq

/-- `rasterio.features.bounds(geometry)`: the minimal axis-aligned rectangle
`(min_x, min_y, max_x, max_y)` enclosing the geometry's vertices. -/
def bounds : List Coord → BBox
  | [] => (0, 0, 0, 0)
  | p :: rest =>
    rest.foldl
      (fun acc q => (min acc.1 q.1, min acc.2.1 q.2, max acc.2.2.1 q.1, max acc.2.2.2 q.2))
      (p.1, p.2, p.1, p.2)

/-- The source profile of an opened asset. -/
def RasterAsset.profile (A : RasterAsset) : Profile :=
  ⟨A.width, A.height, A.transform, A.crs, A.dtype⟩

/-- `geo_fp.index(x, y)`: the `(row, col)` pixel index containing projected
coordinates `(x, y)`, i.e. the inverse affine transform followed by `floor`
(rasterio's default rounding operation). -/
def RasterAsset.index (A : RasterAsset) (x y : ℚ) : Int × Int :=
  let t := A.transform
  let det := t.a * t.e - t.b * t.d
  (⌊(t.a * (y - t.f) - t.d * (x - t.c)) / det⌋,
   ⌊(t.e * (x - t.c) - t.b * (y - t.f)) / det⌋)

/-- `coord_upper_left = coord_transformer.transform(bbox[3], bbox[0])`:
the upper-left projected corner, from `(max_y, min_x)`. -/
def projUL (T : Transf) (bb : BBox) (A : RasterAsset) : Coord :=
  T A.crs (bb.2.2.2, bb.1)

/-- `coord_lower_right = coord_transformer.transform(bbox[1], bbox[2])`:
the lower-right projected corner, from `(min_y, max_x)`. -/
def projLR (T : Transf) (bb : BBox) (A : RasterAsset) : Coord :=
  T A.crs (bb.2.1, bb.2.2.1)

/-- `pixel_upper_left = geo_fp.index(coord_upper_left[0], coord_upper_left[1])`. -/
def pixUL (T : Transf) (bb : BBox) (A : RasterAsset) : Int × Int :=
  A.index (projUL T bb A).1 (projUL T bb A).2

/-- `pixel_lower_right = geo_fp.index(coord_lower_right[0], coord_lower_right[1])`. -/
def pixLR (T : Transf) (bb : BBox) (A : RasterAsset) : Int × Int :=
  A.index (projLR T bb A).1 (projLR T bb A).2

/-- The validation loop `for pixel in pixel_upper_left + pixel_lower_right:
if pixel < 0: ... exit()`: true when any of the four computed pixel
coordinates is negative. -/
def oobCheck (T : Transf) (bb : BBox) (A : RasterAsset) : Bool :=
  decide ((pixUL T bb A).1 < 0) || decide ((pixUL T bb A).2 < 0) ||
  decide ((pixLR T bb A).1 < 0) || decide ((pixLR T bb A).2 < 0)

/-- `rasterio.windows.Window.from_slices((row_ul, row_lr), (col_ul, col_lr))`,
as the tuple `(row_start, row_end, col_start, col_end)`. -/
def pixelWindow (T : Transf) (bb : BBox) (A : RasterAsset) : Int × Int × Int × Int :=
  ((pixUL T bb A).1, (pixLR T bb A).1, (pixUL T bb A).2, (pixLR T bb A).2)

/-- `geo_fp.read(1, window=window)`: a non-boundless windowed read; the
window is cropped to the dataset extent `(0, height) × (0, width)` and the
cropped rectangle of band-1 pixel values is returned. -/
def readBand (A : RasterAsset) (r0 r1 c0 c1 : Int) : SampleBlock :=
  let r0c := max r0 0
  let r1c := min r1 (A.height : Int)
  let c0c := max c0 0
  let c1c := min c1 (A.width : Int)
  ⟨(r1c - r0c).toNat, (c1c - c0c).toNat,
   (List.range (r1c - r0c).toNat).map fun i =>
     (List.range (c1c - c0c).toNat).map fun j =>
       A.pixel (r0c + i).toNat (c0c + j).toNat⟩

/-- `subset.shape`: the realized `(height, width)` of a sample block. -/
def blockShape (b : SampleBlock) : Nat × Nat := (b.rows, b.cols)

/-- The per-asset pipeline body after the bounding box is in hand:
validate the pixel window (`None` models the `exit()` on a negative pixel
coordinate, taken before any read), read the window, and build the output
profile with the new width/height and the translation coefficients replaced
by the upper-left projected corner. -/
def assetOutput (T : Transf) (bb : BBox) (A : RasterAsset) : Option OutputContent :=
  if oobCheck T bb A then none
  else
    let w := pixelWindow T bb A
    let subset := readBand A w.1 w.2.1 w.2.2.1 w.2.2.2
    let s := blockShape subset
    let t := A.transform
    some ⟨{ A.profile with
            width := s.2
            height := s.1
            transform := ⟨t.a, t.b, (projUL T bb A).1, t.d, t.e, (projUL T bb A).2⟩ },
          subset⟩

/-- One iteration of the `for geotiff_file in links:` loop, which starts
with `bbox = bounds(geometry)` and then runs the pipeline body. -/
def processAsset (T : Transf) (g : List Coord) (A : RasterAsset) : Option OutputContent :=
  assetOutput T (bounds g) A

/-- Python `str.split(sep)` for a one-character separator, on strings as
character lists; always returns at least one piece. -/
def pySplit (sep : Char) : List Char → List (List Char)
  | [] => [[]]
  | c :: cs =>
    match pySplit sep cs with
    | [] => [[]]
    | h :: t => if c = sep then [] :: h :: t else (c :: h) :: t

/-- Python `lst[-1]` on a nonempty list (the `split` result is never empty). -/
def pyLast : List (List Char) → List Char
  | [] => []
  | [x] => x
  | _ :: x :: xs => pyLast (x :: xs)

/-- `os.path.join(a, b)` (POSIX) for the two-argument form used here. -/
def osPathJoin (a b : List Char) : List Char :=
  if b.head? = some '/' then b
  else if a = [] ∨ a.getLast? = some '/' then a ++ b
  else a ++ '/' :: b

/-- `geotiff_file.split("/")[-1]`: the output file name chosen for an asset. -/
def outName (url : List Char) : List Char := pyLast (pySplit '/' url)

/-- `os.path.join(dst_dir, geotiff_file.split("/")[-1])`: the destination
path of an asset's output file. -/
def outPath (dstDir url : List Char) : List Char := osPathJoin dstDir (outName url)

/-- Modelled from the spec: "output filename = trailing path segment of the
remote URL", i.e. the substring after the last separator occurrence (the
whole string when the separator does not occur). -/
def trailingSegment (sep : Char) : List Char → List Char
  | [] => []
  | c :: cs =>
    if sep ∈ cs then trailingSegment sep cs
    else if c = sep then cs
    else c :: cs

/-- The local filesystem, as a map from destination paths to the raster
content written there. -/
def FS := List Char → Option OutputContent

/-- `rasterio.open(path, "w", **profile)` followed by `dst.write(subset, 1)`:
creates or silently replaces the file at `path`. -/
def fsWrite (fs : FS) (p : List Char) (c : OutputContent) : FS :=
  fun q => if q = p then some c else fs q

/-- The `for geotiff_file in links:` loop over the filesystem state: each
asset is processed and its output written; an out-of-bounds window calls
`exit()`, ending the whole run with the filesystem as it stands. -/
def processRun (T : Transf) (g : List Coord) (dstDir : List Char) :
    List RasterAsset → FS → FS
  | [], fs => fs
  | A :: rest, fs =>
    match processAsset T g A with
    | none => fs
    | some c => processRun T g dstDir rest (fsWrite fs (outPath dstDir A.url) c)

/-- The sequence of `(path, content)` writes a run performs, in order;
independent of the starting filesystem. -/
def runWrites (T : Transf) (g : List Coord) (dstDir : List Char) :
    List RasterAsset → List (List Char × OutputContent)
  | [] => []
  | A :: rest =>
    match processAsset T g A with
    | none => []
    | some c => (outPath dstDir A.url, c) :: runWrites T g dstDir rest

/-- Replay a sequence of writes against a filesystem. -/
def applyWrites : List (List Char × OutputContent) → FS → FS
  | [], fs => fs
  | w :: ws, fs => applyWrites ws (fsWrite fs w.1 w.2)

/-- The last write to path `q` in a write sequence, if any. -/
def lastWrite (q : List Char) : List (List Char × OutputContent) → Option OutputContent
  | [] => none
  | w :: ws =>
    match lastWrite q ws with
    | some c => some c
    | none => if q = w.1 then some w.2 else none

/-- The asset loop with the bounding box passed in from outside. -/
def runFromBBox (T : Transf) (bb : BBox) (dstDir : List Char) :
    List RasterAsset → FS → FS
  | [], fs => fs
  | A :: rest, fs =>
    match assetOutput T bb A with
    | none => fs
    | some c => runFromBBox T bb dstDir rest (fsWrite fs (outPath dstDir A.url) c)

/-- Modelled from the spec: "BoundingBox is computed once per run" — the
same loop with the bounding box derived exactly once before the loop. -/
def processRunHoisted (T : Transf) (g : List Coord) (dstDir : List Char)
    (assets : List RasterAsset) (fs : FS) : FS :=
  runFromBBox T (bounds g) dstDir assets fs

/-- Trace events of the coordinate-transformer collaborator: construction
of `Transformer.from_crs(src, dst)` and application of a constructed
transformer to a point. Constructions are numbered by the index of the loop
iteration performing them, so distinct iterations yield distinct
transformer identities. -/
inductive TEvent where
  | construct (id : Nat) (src dst : Nat)
  | applyPoint (id : Nat) (p : Coord)
deriving DecidableEq

/-- The iteration index a trace event belongs to. -/
def eventId : TEvent → Nat
  | .construct i _ _ => i
  | .applyPoint i _ => i

/-- The transformer events of loop iteration `i` on asset `A`: one
construction (`Transformer.from_crs("epsg:4326", geo_fp.crs)`) followed by
the two `transform` calls, on `(bbox[3], bbox[0])` and `(bbox[1], bbox[2])`. -/
def assetEvents (g : List Coord) (i : Nat) (A : RasterAsset) : List TEvent :=
  [.construct i 4326 A.crs,
   .applyPoint i ((bounds g).2.2.2, (bounds g).1),
   .applyPoint i ((bounds g).2.1, (bounds g).2.2.1)]

/-- The transformer trace of a run starting at iteration index `i`: an
out-of-bounds window stops the run after the current iteration's transform
calls (the check happens after them). -/
def runEvents (T : Transf) (g : List Coord) : Nat → List RasterAsset → List TEvent
  | _, [] => []
  | i, A :: rest =>
    assetEvents g i A ++
      (if oobCheck T (bounds g) A then [] else runEvents T g (i + 1) rest)

/-- The `(src, dst)` CRS pairs of the transformer constructions performed by
iteration `i`, in order. -/
def constructsFor (i : Nat) (log : List TEvent) : List (Nat × Nat) :=
  log.filterMap fun e =>
    match e with
    | .construct j s d => if j = i then some (s, d) else none
    | .applyPoint _ _ => none

/-- The points the transformer constructed by iteration `i` is applied to,
in order. -/
def appliesFor (i : Nat) (log : List TEvent) : List Coord :=
  log.filterMap fun e =>
    match e with
    | .applyPoint j p => if j = i then some p else none
    | .construct _ _ _ => none

/-- A concrete transformer family: swaps the two coordinates (as the
EPSG:4326 transformer swaps the (lat, lon) input into (x, y) order). -/
def Tswap : Transf := fun _ p => (p.2, p.1)

/-- A unit-pixel north-up affine transform (origin at zero). -/
def affStd : Affine := ⟨1, 0, 0, 0, -1, 0⟩

/-- A north-up affine transform whose origin lies below the test geometry,
so that the inverse mapping produces negative rows. -/
def affShift : Affine := ⟨1, 0, 0, 0, -1, -10⟩

/-- A two-vertex geometry whose bounding box maps, under `Tswap` and
`affStd`, to the pixel window with rows `0..r` and columns `0..c`. -/
def gWin (r c : ℚ) : List Coord := [(0, 0), (c, -r)]

/-- A geometry lying above the `affStd` origin: its upper-left corner maps
to row `-1`. -/
def gOob : List Coord := [(0, 1), (1, 0)]

/-- A small asset with constant band-1 pixel value `v`. -/
def mkAsset (u : List Char) (crs w h : Nat) (v : Int) : RasterAsset :=
  ⟨u, crs, w, h, affStd, 5, fun _ _ => v⟩

/-- The empty filesystem. -/
def fsEmpty : FS := fun _ => none

/-- A concrete destination directory. -/
def dstStd : List Char := ['o', 'u', 't']

def c1Asset : RasterAsset := mkAsset ['a'] 32632 4 4 7

def c2Asset : RasterAsset := mkAsset ['a'] 32632 4 4 7

def c2Out : OutputContent := ⟨⟨1, 1, ⟨1, 0, 0, 0, -1, 0⟩, 32632, 5⟩, ⟨1, 1, [[7]]⟩⟩

def c3Asset : RasterAsset := mkAsset ['b'] 32632 2 2 7

def c3Asset2 : RasterAsset := mkAsset ['c'] 32632 4 4 3

def c3Out : OutputContent :=
  ⟨⟨3, 4, ⟨1, 0, 0, 0, -1, 0⟩, 32632, 5⟩,
   ⟨4, 3, [[3, 3, 3], [3, 3, 3], [3, 3, 3], [3, 3, 3]]⟩⟩

def c5AssetA : RasterAsset := mkAsset ['a'] 32632 4 4 1

def c5AssetB : RasterAsset := mkAsset ['b'] 32633 4 4 2

def c9AssetA : RasterAsset := mkAsset ['a', '/', 'x'] 32632 4 4 1

def c9AssetB : RasterAsset := mkAsset ['b', '/', 'x'] 32632 4 4 2

def c9OutA : OutputContent := ⟨⟨1, 1, ⟨1, 0, 0, 0, -1, 0⟩, 32632, 5⟩, ⟨1, 1, [[1]]⟩⟩

def c9OutB : OutputContent := ⟨⟨1, 1, ⟨1, 0, 0, 0, -1, 0⟩, 32632, 5⟩, ⟨1, 1, [[2]]⟩⟩

def c10AssetA : RasterAsset := mkAsset ['a'] 32632 4 4 1

def c10AssetBad : RasterAsset := ⟨['z'], 32632, 4, 4, affShift, 5, fun _ _ => 0⟩

def c10AssetC : RasterAsset := mkAsset ['c'] 32632 4 4 3

/-! ### Helper lemmas -/

theorem oobCheck_false_bounds (T : Transf) (bb : BBox) (A : RasterAsset)
    (hb : ¬ oobCheck T bb A = true) :
    0 ≤ (pixUL T bb A).1 ∧ 0 ≤ (pixUL T bb A).2 ∧
    0 ≤ (pixLR T bb A).1 ∧ 0 ≤ (pixLR T bb A).2 := by
  simpa [oobCheck, not_or, not_lt, and_assoc] using hb

theorem processAsset_none_iff (T : Transf) (g : List Coord) (A : RasterAsset) :
    processAsset T g A = none ↔ oobCheck T (bounds g) A = true := by
  unfold processAsset assetOutput
  by_cases h : oobCheck T (bounds g) A
  · simp [h]
  · simp [h]

theorem processAsset_some_inv (T : Transf) (g : List Coord) (A : RasterAsset)
    (c : OutputContent) (h : processAsset T g A = some c) :
    ¬ oobCheck T (bounds g) A = true ∧
    c = ⟨{ A.profile with
           width := (blockShape (readBand A (pixUL T (bounds g) A).1
             (pixLR T (bounds g) A).1 (pixUL T (bounds g) A).2
             (pixLR T (bounds g) A).2)).2
           height := (blockShape (readBand A (pixUL T (bounds g) A).1
             (pixLR T (bounds g) A).1 (pixUL T (bounds g) A).2
             (pixLR T (bounds g) A).2)).1
           transform := ⟨A.transform.a, A.transform.b, (projUL T (bounds g) A).1,
             A.transform.d, A.transform.e, (projUL T (bounds g) A).2⟩ },
         readBand A (pixUL T (bounds g) A).1 (pixLR T (bounds g) A).1
           (pixUL T (bounds g) A).2 (pixLR T (bounds g) A).2⟩ := by
  unfold processAsset assetOutput at h
  by_cases hb : oobCheck T (bounds g) A
  · simp [hb] at h
  · refine ⟨hb, ?_⟩
    simp only [hb, if_false, Bool.false_eq_true, pixelWindow, Option.some.injEq] at h
    exact h.symm

theorem blockShape_readBand (A : RasterAsset) (r0 r1 c0 c1 : Int) :
    blockShape (readBand A r0 r1 c0 c1) =
      ((min r1 (A.height : Int) - max r0 0).toNat,
       (min c1 (A.width : Int) - max c0 0).toNat) := rfl

/-! ### Claim theorems C1 - C4 -/

/-- C1: the pipeline signals the out-of-bounds condition for an asset — and
then terminates the run with no output written for that asset — exactly when
one of the four computed pixel coordinates is negative; coordinates larger
than the asset's width or height never trigger it (the right-to-left
direction holds with no reference to the asset's dimensions). -/
theorem c1_out_of_bounds_iff (T : Transf) (g : List Coord) (A : RasterAsset)
    (dstDir : List Char) (rest : List RasterAsset) (fs : FS) :
    (processAsset T g A = none ↔
      ((pixUL T (bounds g) A).1 < 0 ∨ (pixUL T (bounds g) A).2 < 0 ∨
       (pixLR T (bounds g) A).1 < 0 ∨ (pixLR T (bounds g) A).2 < 0)) ∧
    (processAsset T g A = none →
      processRun T g dstDir (A :: rest) fs = fs) := by
  refine ⟨?_, ?_⟩
  · rw [processAsset_none_iff]
    simp [oobCheck, or_assoc]
  · intro h
    simp [processRun, h]

/-- C1 witness: a concrete asset whose upper-left corner maps to row `-1`. -/
theorem c1_witness :
    (processAsset Tswap gOob c1Asset = none ↔
      ((pixUL Tswap (bounds gOob) c1Asset).1 < 0 ∨
       (pixUL Tswap (bounds gOob) c1Asset).2 < 0 ∨
       (pixLR Tswap (bounds gOob) c1Asset).1 < 0 ∨
       (pixLR Tswap (bounds gOob) c1Asset).2 < 0)) ∧
    (processAsset Tswap gOob c1Asset = none →
      processRun Tswap gOob dstStd (c1Asset :: []) fsEmpty = fsEmpty) :=
  c1_out_of_bounds_iff Tswap gOob c1Asset dstStd [] fsEmpty

/-- C2: the output profile of a completed asset has width/height equal to the
realized block shape, keeps the source's scale/rotation coefficients
`(a, b, d, e)`, and anchors the translation coefficients `(c, f)` at the
upper-left projected corner. -/
theorem c2_output_profile (T : Transf) (g : List Coord) (A : RasterAsset)
    (c : OutputContent) (h : processAsset T g A = some c) :
    c.profile.width = (blockShape c.block).2 ∧
    c.profile.height = (blockShape c.block).1 ∧
    c.profile.transform.a = A.transform.a ∧
    c.profile.transform.b = A.transform.b ∧
    c.profile.transform.d = A.transform.d ∧
    c.profile.transform.e = A.transform.e ∧
    c.profile.transform.c = (projUL T (bounds g) A).1 ∧
    c.profile.transform.f = (projUL T (bounds g) A).2 := by
  obtain ⟨-, rfl⟩ := processAsset_some_inv T g A c h
  exact ⟨rfl, rfl, rfl, rfl, rfl, rfl, rfl, rfl⟩

/-- C2 witness: a concrete asset processed to completion. -/
theorem c2_witness :
    c2Out.profile.width = (blockShape c2Out.block).2 ∧
    c2Out.profile.height = (blockShape c2Out.block).1 ∧
    c2Out.profile.transform.a = c2Asset.transform.a ∧
    c2Out.profile.transform.b = c2Asset.transform.b ∧
    c2Out.profile.transform.d = c2Asset.transform.d ∧
    c2Out.profile.transform.e = c2Asset.transform.e ∧
    c2Out.profile.transform.c = (projUL Tswap (bounds (gWin 1 1)) c2Asset).1 ∧
    c2Out.profile.transform.f = (projUL Tswap (bounds (gWin 1 1)) c2Asset).2 :=
  c2_output_profile Tswap (gWin 1 1) c2Asset c2Out (by
    have hwin : pixUL Tswap (bounds (gWin 1 1)) c2Asset = (0, 0) ∧
        pixLR Tswap (bounds (gWin 1 1)) c2Asset = (1, 1) ∧
        projUL Tswap (bounds (gWin 1 1)) c2Asset = (0, 0) := by
      norm_num [pixUL, pixLR, projUL, projLR, RasterAsset.index, bounds, gWin, Tswap,
        c2Asset, mkAsset, affStd]
    rw [processAsset, assetOutput, oobCheck, pixelWindow, hwin.1, hwin.2.1, hwin.2.2]
    decide)

/-- C3 counterexample: a `5 × 5` validated window over a `2 × 2` asset is
clipped by the read, so the realized shape `(2, 2)` differs from
`(row_end - row_start, col_end - col_start) = (5, 5)`. -/
theorem c3_counterexample :
    (processAsset Tswap (gWin 5 5) c3Asset).map (fun c => blockShape c.block) =
      some (2, 2) ∧
    (pixLR Tswap (bounds (gWin 5 5)) c3Asset).1 -
      (pixUL Tswap (bounds (gWin 5 5)) c3Asset).1 = 5 ∧
    (pixLR Tswap (bounds (gWin 5 5)) c3Asset).2 -
      (pixUL Tswap (bounds (gWin 5 5)) c3Asset).2 = 5 ∧
    ((2 : Nat), (2 : Nat)) ≠ ((5 : Int).toNat, (5 : Int).toNat) := by
  have hwin : pixUL Tswap (bounds (gWin 5 5)) c3Asset = (0, 0) ∧
      pixLR Tswap (bounds (gWin 5 5)) c3Asset = (5, 5) ∧
      projUL Tswap (bounds (gWin 5 5)) c3Asset = (0, 0) := by
    norm_num [pixUL, pixLR, projUL, projLR, RasterAsset.index, bounds, gWin, Tswap,
      c3Asset, mkAsset, affStd]
  refine ⟨?_, ?_, ?_, by decide⟩
  · rw [processAsset, assetOutput, oobCheck, pixelWindow, hwin.1, hwin.2.1, hwin.2.2]
    decide
  · rw [hwin.1, hwin.2.1]
    decide
  · rw [hwin.1, hwin.2.1]
    decide

/-- C3 amended: for every validated window, the realized shape is the window
clipped to the asset's extent, `(min(r1, height) - r0, min(c1, width) - c0)`;
in particular it equals `(row_end - row_start, col_end - col_start)` whenever
the window does not extend past the asset's height and width. -/
theorem c3_clipped_shape (T : Transf) (g : List Coord) (A : RasterAsset)
    (c : OutputContent) (h : processAsset T g A = some c) :
    blockShape c.block =
      ((min (pixLR T (bounds g) A).1 (A.height : Int) -
          (pixUL T (bounds g) A).1).toNat,
       (min (pixLR T (bounds g) A).2 (A.width : Int) -
          (pixUL T (bounds g) A).2).toNat) ∧
    ((pixLR T (bounds g) A).1 ≤ (A.height : Int) →
      (pixLR T (bounds g) A).2 ≤ (A.width : Int) →
      blockShape c.block =
        (((pixLR T (bounds g) A).1 - (pixUL T (bounds g) A).1).toNat,
         ((pixLR T (bounds g) A).2 - (pixUL T (bounds g) A).2).toNat)) := by
  obtain ⟨hb, rfl⟩ := processAsset_some_inv T g A c h
  obtain ⟨h1, h2, -, -⟩ := oobCheck_false_bounds T (bounds g) A hb
  refine ⟨?_, ?_⟩
  · rw [blockShape_readBand, max_eq_left h1, max_eq_left h2]
  · intro hr hc
    rw [blockShape_readBand, max_eq_left h1, max_eq_left h2, min_eq_left hr,
      min_eq_left hc]

/-- C3 amended witness: a validated `6 × 3` window over a `4 × 4` asset is
clipped to the realized shape `(4, 3)`. -/
theorem c3_witness :
    (blockShape c3Out.block =
      ((min (pixLR Tswap (bounds (gWin 6 3)) c3Asset2).1 (c3Asset2.height : Int) -
          (pixUL Tswap (bounds (gWin 6 3)) c3Asset2).1).toNat,
       (min (pixLR Tswap (bounds (gWin 6 3)) c3Asset2).2 (c3Asset2.width : Int) -
          (pixUL Tswap (bounds (gWin 6 3)) c3Asset2).2).toNat)) ∧
    ((pixLR Tswap (bounds (gWin 6 3)) c3Asset2).1 ≤ (c3Asset2.height : Int) →
      (pixLR Tswap (bounds (gWin 6 3)) c3Asset2).2 ≤ (c3Asset2.width : Int) →
      blockShape c3Out.block =
        (((pixLR Tswap (bounds (gWin 6 3)) c3Asset2).1 -
          (pixUL Tswap (bounds (gWin 6 3)) c3Asset2).1).toNat,
         ((pixLR Tswap (bounds (gWin 6 3)) c3Asset2).2 -
          (pixUL Tswap (bounds (gWin 6 3)) c3Asset2).2).toNat)) :=
  c3_clipped_shape Tswap (gWin 6 3) c3Asset2 c3Out
    (by
      have hwin : pixUL Tswap (bounds (gWin 6 3)) c3Asset2 = (0, 0) ∧
          pixLR Tswap (bounds (gWin 6 3)) c3Asset2 = (6, 3) ∧
          projUL Tswap (bounds (gWin 6 3)) c3Asset2 = (0, 0) := by
        norm_num [pixUL, pixLR, projUL, projLR, RasterAsset.index, bounds, gWin, Tswap,
          c3Asset2, mkAsset, affStd]
      rw [processAsset, assetOutput, oobCheck, pixelWindow, hwin.1, hwin.2.1, hwin.2.2]
      decide)

/-- C4: exactly the two projected corners are produced — the upper-left from
`(max_y, min_x)` and the lower-right from `(min_y, max_x)` — and the pixel
window maps the upper-left corner through the inverse affine to
`(row_start, col_start)` and the lower-right to `(row_end, col_end)`. -/
theorem c4_corner_convention (T : Transf) (g : List Coord) (A : RasterAsset) :
    projUL T (bounds g) A = T A.crs ((bounds g).2.2.2, (bounds g).1) ∧
    projLR T (bounds g) A = T A.crs ((bounds g).2.1, (bounds g).2.2.1) ∧
    pixelWindow T (bounds g) A =
      ((A.index (projUL T (bounds g) A).1 (projUL T (bounds g) A).2).1,
       (A.index (projLR T (bounds g) A).1 (projLR T (bounds g) A).2).1,
       (A.index (projUL T (bounds g) A).1 (projUL T (bounds g) A).2).2,
       (A.index (projLR T (bounds g) A).1 (projLR T (bounds g) A).2).2) :=
  ⟨rfl, rfl, rfl⟩

/-! ### Splitting lemmas for the output file name -/

theorem pySplit_ne_nil (sep : Char) (s : List Char) : pySplit sep s ≠ [] := by
  cases s with
  | nil => simp [pySplit]
  | cons c cs =>
    unfold pySplit
    cases h : pySplit sep cs with
    | nil => simp
    | cons h0 t0 => by_cases hc : c = sep <;> simp [hc]

theorem pySplit_of_not_mem (sep : Char) (s : List Char) (h : sep ∉ s) :
    pySplit sep s = [s] := by
  induction s with
  | nil => rfl
  | cons c cs ih =>
    have hc : ¬ c = sep := fun he => h (he ▸ List.mem_cons_self c cs)
    have hcs : sep ∉ cs := fun hm => h (List.mem_cons_of_mem c hm)
    simp [pySplit, ih hcs, hc]

theorem pySplit_length_of_mem (sep : Char) (s : List Char) (h : sep ∈ s) :
    2 ≤ (pySplit sep s).length := by
  induction s with
  | nil => simp at h
  | cons c cs ih =>
    unfold pySplit
    cases hr : pySplit sep cs with
    | nil => exact absurd hr (pySplit_ne_nil sep cs)
    | cons h0 t0 =>
      by_cases hc : c = sep
      · simp [hc]
      · have hm : sep ∈ cs := by
          rcases List.mem_cons.mp h with he | hm
          · exact absurd he.symm hc
          · exact hm
        have := ih hm
        rw [hr] at this
        simp only [hc, if_false]
        simpa using this

theorem trailingSegment_of_not_mem (sep : Char) (s : List Char) (h : sep ∉ s) :
    trailingSegment sep s = s := by
  induction s with
  | nil => rfl
  | cons c cs ih =>
    have hc : ¬ c = sep := fun he => h (he ▸ List.mem_cons_self c cs)
    have hcs : sep ∉ cs := fun hm => h (List.mem_cons_of_mem c hm)
    simp [trailingSegment, hcs, hc]

theorem pyLast_cons_cons (x y : List Char) (t : List (List Char)) :
    pyLast (x :: y :: t) = pyLast (y :: t) := rfl

theorem pyLast_pySplit (sep : Char) (s : List Char) :
    pyLast (pySplit sep s) = trailingSegment sep s := by
  induction s with
  | nil => rfl
  | cons c cs ih =>
    by_cases hc : c = sep
    · subst hc
      cases hr : pySplit c cs with
      | nil => exact absurd hr (pySplit_ne_nil c cs)
      | cons h0 t0 =>
        have hstep : pySplit c (c :: cs) = [] :: h0 :: t0 := by
          simp [pySplit, hr]
        rw [hstep, pyLast_cons_cons, ← hr, ih]
        by_cases hm : c ∈ cs
        · simp [trailingSegment, hm]
        · simp [trailingSegment, hm, trailingSegment_of_not_mem c cs hm]
    · cases hr : pySplit sep cs with
      | nil => exact absurd hr (pySplit_ne_nil sep cs)
      | cons h0 t0 =>
        have hstep : pySplit sep (c :: cs) = (c :: h0) :: t0 := by
          simp [pySplit, hr, hc]
        cases t0 with
        | nil =>
          have hnm : sep ∉ cs := by
            intro hm
            have := pySplit_length_of_mem sep cs hm
            rw [hr] at this
            simp at this
          have h0cs : h0 = cs := by
            have := pySplit_of_not_mem sep cs hnm
            rw [hr] at this
            simpa using this
          subst h0cs
          rw [hstep]
          have hone : pyLast [c :: h0] = c :: h0 := rfl
          rw [hone]
          simp [trailingSegment, hnm, hc]
        | cons t1 ts =>
          rw [hstep, pyLast_cons_cons, ← pyLast_cons_cons h0 t1 ts, ← hr, ih]
          have hm : sep ∈ cs := by
            by_contra hnm
            have := pySplit_of_not_mem sep cs hnm
            rw [hr] at this
            simp at this
          simp [trailingSegment, hm]

/-- C6: the destination path of every asset is the destination directory
joined with exactly the trailing path segment (the substring after the last
separator) of the asset's remote URL. -/
theorem c6_output_name (dstDir url : List Char) :
    outPath dstDir url = osPathJoin dstDir (trailingSegment '/' url) := by
  unfold outPath outName
  rw [pyLast_pySplit]

/-- C6 witness: the remote path `.../scene_band4.tif` yields the output file
`scene_band4.tif` inside the destination directory. -/
theorem c6_witness :
    outPath dstStd
        ['h', 't', 'x', '/', 's', 'c', 'e', 'n', 'e', '_', 'b', 'a', 'n', 'd',
         '4', '.', 't', 'i', 'f'] =
      osPathJoin dstStd
        (trailingSegment '/'
          ['h', 't', 'x', '/', 's', 'c', 'e', 'n', 'e', '_', 'b', 'a', 'n', 'd',
           '4', '.', 't', 'i', 'f']) :=
  c6_output_name dstStd
    ['h', 't', 'x', '/', 's', 'c', 'e', 'n', 'e', '_', 'b', 'a', 'n', 'd',
     '4', '.', 't', 'i', 'f']

/-! ### Run lemmas over the filesystem -/

theorem run_eq_applyWrites (T : Transf) (g : List Coord) (dstDir : List Char) :
    ∀ (as : List RasterAsset) (fs : FS),
      processRun T g dstDir as fs = applyWrites (runWrites T g dstDir as) fs := by
  intro as
  induction as with
  | nil => intro fs; rfl
  | cons A rest ih =>
    intro fs
    cases hA : processAsset T g A with
    | none => simp [processRun, runWrites, hA, applyWrites]
    | some c => simp [processRun, runWrites, hA, applyWrites, ih]

theorem applyWrites_lookup (q : List Char) :
    ∀ (W : List (List Char × OutputContent)) (fs : FS),
      applyWrites W fs q = (lastWrite q W).elim (fs q) some := by
  intro W
  induction W with
  | nil => intro fs; rfl
  | cons w ws ih =>
    intro fs
    show applyWrites ws (fsWrite fs w.1 w.2) q = _
    rw [ih]
    cases hl : lastWrite q ws with
    | some c => simp [lastWrite, hl]
    | none =>
      simp only [lastWrite, hl, fsWrite]
      by_cases hq : q = w.1 <;> simp [hq]

/-- C7: a run is a pure function of its inputs with no hidden state, so
running it twice over the same assets and geometry leaves exactly the
filesystem of a single run (every output file holds byte-identical content). -/
theorem c7_run_idempotent (T : Transf) (g : List Coord) (dstDir : List Char)
    (as : List RasterAsset) (fs : FS) :
    processRun T g dstDir as (processRun T g dstDir as fs) =
      processRun T g dstDir as fs := by
  simp only [run_eq_applyWrites]
  funext q
  simp only [applyWrites_lookup]
  cases hl : lastWrite q (runWrites T g dstDir as) <;> simp

/-- C8: the run computed as written (the bounding box re-derived from the
geometry inside each loop iteration) is observably equal to the run that
derives the bounding box exactly once before the loop. -/
theorem c8_bbox_once (T : Transf) (g : List Coord) (dstDir : List Char) :
    ∀ (as : List RasterAsset) (fs : FS),
      processRun T g dstDir as fs = processRunHoisted T g dstDir as fs := by
  intro as
  unfold processRunHoisted
  induction as with
  | nil => intro fs; rfl
  | cons A rest ih =>
    intro fs
    cases hA : assetOutput T (bounds g) A with
    | none => simp [processRun, runFromBBox, processAsset, hA]
    | some c => simp [processRun, runFromBBox, processAsset, hA, ih]

/-- C9: writing never fails on an existing destination; when two assets of
one run share the trailing URL segment they share the destination path, and
the later write silently replaces the earlier output. -/
theorem c9_overwrite (T : Transf) (g : List Coord) (dstDir : List Char)
    (A1 A2 : RasterAsset) (fs : FS) (c1 c2 : OutputContent)
    (h1 : processAsset T g A1 = some c1) (h2 : processAsset T g A2 = some c2)
    (hn : outName A2.url = outName A1.url) :
    processRun T g dstDir [A1, A2] fs (outPath dstDir A1.url) = some c2 := by
  have hp : outPath dstDir A2.url = outPath dstDir A1.url := by
    unfold outPath
    rw [hn]
  simp [processRun, h1, h2, fsWrite, hp]

/-- C9 witness: two concrete assets with the same basename `x`; the final
file content is the second asset's output. -/
theorem c9_witness :
    processRun Tswap (gWin 1 1) dstStd [c9AssetA, c9AssetB] fsEmpty
      (outPath dstStd c9AssetA.url) = some c9OutB :=
  c9_overwrite Tswap (gWin 1 1) dstStd c9AssetA c9AssetB fsEmpty c9OutA c9OutB
    (by
      have hwin : pixUL Tswap (bounds (gWin 1 1)) c9AssetA = (0, 0) ∧
          pixLR Tswap (bounds (gWin 1 1)) c9AssetA = (1, 1) ∧
          projUL Tswap (bounds (gWin 1 1)) c9AssetA = (0, 0) := by
        norm_num [pixUL, pixLR, projUL, projLR, RasterAsset.index, bounds, gWin, Tswap,
          c9AssetA, mkAsset, affStd]
      rw [processAsset, assetOutput, oobCheck, pixelWindow, hwin.1, hwin.2.1, hwin.2.2]
      decide)
    (by
      have hwin : pixUL Tswap (bounds (gWin 1 1)) c9AssetB = (0, 0) ∧
          pixLR Tswap (bounds (gWin 1 1)) c9AssetB = (1, 1) ∧
          projUL Tswap (bounds (gWin 1 1)) c9AssetB = (0, 0) := by
        norm_num [pixUL, pixLR, projUL, projLR, RasterAsset.index, bounds, gWin, Tswap,
          c9AssetB, mkAsset, affStd]
      rw [processAsset, assetOutput, oobCheck, pixelWindow, hwin.1, hwin.2.1, hwin.2.2]
      decide)
    (by decide)

/-- C10: when the run is aborted at an out-of-bounds asset, the filesystem is
exactly the one left by the prefix of assets processed before it: the abort
performs no rollback or cleanup of earlier outputs, and writes nothing for
the failing asset or the ones after it. -/
theorem c10_no_rollback (T : Transf) (g : List Coord) (dstDir : List Char)
    (pre rest : List RasterAsset) (bad : RasterAsset) (fs : FS)
    (h : processAsset T g bad = none) :
    processRun T g dstDir (pre ++ bad :: rest) fs = processRun T g dstDir pre fs := by
  induction pre generalizing fs with
  | nil => simp [processRun, h]
  | cons A pre0 ih =>
    cases hA : processAsset T g A with
    | none => simp [processRun, hA]
    | some c => simp [processRun, hA, ih]

/-- C10 witness: a run aborted at its second asset leaves exactly the file
written for the first. -/
theorem c10_witness :
    processRun Tswap (gWin 1 1) dstStd ([c10AssetA] ++ c10AssetBad :: [c10AssetC])
        fsEmpty =
      processRun Tswap (gWin 1 1) dstStd [c10AssetA] fsEmpty :=
  c10_no_rollback Tswap (gWin 1 1) dstStd [c10AssetA] [c10AssetC] c10AssetBad fsEmpty
    (by
      have hul : pixUL Tswap (bounds (gWin 1 1)) c10AssetBad = (-10, 0) := by
        norm_num [pixUL, projUL, RasterAsset.index, bounds, gWin, Tswap, c10AssetBad,
          affShift]
      rw [processAsset, assetOutput, oobCheck, hul]
      decide)

/-! ### Transformer trace lemmas -/

theorem runEvents_id_ge (T : Transf) (g : List Coord) :
    ∀ (as : List RasterAsset) (n : Nat) (e : TEvent),
      e ∈ runEvents T g n as → n ≤ eventId e := by
  intro as
  induction as with
  | nil => intro n e he; simp [runEvents] at he
  | cons A rest ih =>
    intro n e he
    by_cases hc : oobCheck T (bounds g) A
    · simp [runEvents, hc, assetEvents] at he
      rcases he with h | h | h <;> subst h <;> simp [eventId]
    · simp [runEvents, hc, assetEvents] at he
      rcases he with h | h | h | h
      · subst h; simp [eventId]
      · subst h; simp [eventId]
      · subst h; simp [eventId]
      · have := ih (n + 1) e h
        omega

theorem constructsFor_append (i : Nat) (l1 l2 : List TEvent) :
    constructsFor i (l1 ++ l2) = constructsFor i l1 ++ constructsFor i l2 := by
  simp [constructsFor, List.filterMap_append]

theorem appliesFor_append (i : Nat) (l1 l2 : List TEvent) :
    appliesFor i (l1 ++ l2) = appliesFor i l1 ++ appliesFor i l2 := by
  simp [appliesFor, List.filterMap_append]

theorem constructsFor_eq_nil (i : Nat) (log : List TEvent)
    (h : ∀ e ∈ log, eventId e ≠ i) : constructsFor i log = [] := by
  induction log with
  | nil => rfl
  | cons e es ih =>
    have he := h e (List.mem_cons_self e es)
    have ihe := ih fun x hx => h x (List.mem_cons_of_mem e hx)
    cases e with
    | construct j s d =>
      have hj : ¬ j = i := by simpa [eventId] using he
      simpa [constructsFor, List.filterMap_cons, hj] using ihe
    | applyPoint j p =>
      have hj : ¬ j = i := by simpa [eventId] using he
      simpa [constructsFor, List.filterMap_cons] using ihe

theorem appliesFor_eq_nil (i : Nat) (log : List TEvent)
    (h : ∀ e ∈ log, eventId e ≠ i) : appliesFor i log = [] := by
  induction log with
  | nil => rfl
  | cons e es ih =>
    have he := h e (List.mem_cons_self e es)
    have ihe := ih fun x hx => h x (List.mem_cons_of_mem e hx)
    cases e with
    | construct j s d =>
      simpa [appliesFor, List.filterMap_cons] using ihe
    | applyPoint j p =>
      have hj : ¬ j = i := by simpa [eventId] using he
      simpa [appliesFor, List.filterMap_cons, hj] using ihe

theorem runEvents_at_index (T : Transf) (g : List Coord) :
    ∀ (as : List RasterAsset) (n i : Nat) (A : RasterAsset),
      as[i]? = some A →
      (∀ j B, j < i → as[j]? = some B → oobCheck T (bounds g) B = false) →
      constructsFor (n + i) (runEvents T g n as) = [(4326, A.crs)] ∧
      appliesFor (n + i) (runEvents T g n as) =
        [((bounds g).2.2.2, (bounds g).1), ((bounds g).2.1, (bounds g).2.2.1)] := by
  intro as
  induction as with
  | nil => intro n i A h _; simp at h
  | cons B rest ih =>
    intro n i A h hpre
    cases i with
    | zero =>
      have hA : B = A := by simpa using h
      subst hA
      have htail : ∀ e ∈ (if oobCheck T (bounds g) B = true then ([] : List TEvent)
          else runEvents T g (n + 1) rest), eventId e ≠ n + 0 := by
        intro e he
        by_cases hc : oobCheck T (bounds g) B
        · simp [hc] at he
        · simp only [hc, Bool.false_eq_true, if_false] at he
          have := runEvents_id_ge T g rest (n + 1) e he
          omega
      have hsplit : runEvents T g n (B :: rest) =
          assetEvents g n B ++ (if oobCheck T (bounds g) B = true then []
            else runEvents T g (n + 1) rest) := rfl
      rw [hsplit]
      constructor
      · rw [constructsFor_append, constructsFor_eq_nil _ _ htail]
        simp [constructsFor, assetEvents]
      · rw [appliesFor_append, appliesFor_eq_nil _ _ htail]
        simp [appliesFor, assetEvents]
    | succ i0 =>
      have hoob : oobCheck T (bounds g) B = false := hpre 0 B (Nat.succ_pos i0) (by simp)
      have h2 : rest[i0]? = some A := by simpa using h
      have hpre2 : ∀ j B2, j < i0 → rest[j]? = some B2 →
          oobCheck T (bounds g) B2 = false := by
        intro j B2 hj hB
        exact hpre (j + 1) B2 (by omega) (by simpa using hB)
      have hmain := ih (n + 1) i0 A h2 hpre2
      have hne : ∀ e ∈ assetEvents g n B, eventId e ≠ n + (i0 + 1) := by
        intro e he
        simp [assetEvents] at he
        rcases he with h | h | h <;> subst h <;> simp [eventId]
      have hsplit : runEvents T g n (B :: rest) =
          assetEvents g n B ++ runEvents T g (n + 1) rest := by
        simp [runEvents, hoob]
      rw [hsplit, constructsFor_append, appliesFor_append,
        constructsFor_eq_nil _ _ hne, appliesFor_eq_nil _ _ hne]
      have harith : n + (i0 + 1) = (n + 1) + i0 := by omega
      rw [harith]
      simpa using hmain

/-- C5: in any run, the loop iteration processing asset `i` (reached when no
earlier asset aborted the run) constructs exactly one coordinate transform,
from EPSG:4326 to that asset's own CRS, and that transform is applied to
exactly the two bounding-box corners of that iteration — transformer
identities are per-iteration, so a transform built for one asset is never
reused for another. -/
theorem c5_transformer_per_asset (T : Transf) (g : List Coord)
    (as : List RasterAsset) (i : Nat) (A : RasterAsset) (h : as[i]? = some A)
    (hpre : ∀ j B, j < i → as[j]? = some B → oobCheck T (bounds g) B = false) :
    constructsFor i (runEvents T g 0 as) = [(4326, A.crs)] ∧
    appliesFor i (runEvents T g 0 as) =
      [((bounds g).2.2.2, (bounds g).1), ((bounds g).2.1, (bounds g).2.2.1)] := by
  have := runEvents_at_index T g as 0 i A h hpre
  simpa using this

/-- C5 witness: two assets with different CRSs in one run; the second
iteration has its own transform targeting EPSG:32633. -/
theorem c5_witness :
    constructsFor 1 (runEvents Tswap (gWin 1 1) 0 [c5AssetA, c5AssetB]) =
      [(4326, 32633)] ∧
    appliesFor 1 (runEvents Tswap (gWin 1 1) 0 [c5AssetA, c5AssetB]) =
      [((bounds (gWin 1 1)).2.2.2, (bounds (gWin 1 1)).1),
       ((bounds (gWin 1 1)).2.1, (bounds (gWin 1 1)).2.2.1)] := by
  have hpre : ∀ j B, j < 1 → [c5AssetA, c5AssetB][j]? = some B →
      oobCheck Tswap (bounds (gWin 1 1)) B = false := by
    intro j B hj hB
    have hj0 : j = 0 := by omega
    subst hj0
    simp only [List.getElem?_cons_zero, Option.some.injEq] at hB
    subst hB
    have hwin : pixUL Tswap (bounds (gWin 1 1)) c5AssetA = (0, 0) ∧
        pixLR Tswap (bounds (gWin 1 1)) c5AssetA = (1, 1) := by
      norm_num [pixUL, pixLR, projUL, projLR, RasterAsset.index, bounds, gWin, Tswap,
        c5AssetA, mkAsset, affStd]
    rw [oobCheck, hwin.1, hwin.2]
    decide
  have := c5_transformer_per_asset Tswap (gWin 1 1) [c5AssetA, c5AssetB] 1 c5AssetB
    rfl hpre
  simpa [c5AssetB, mkAsset] using this

end StacDL
